import Mathlib

/-!
Verification model of the sysLoss power-tree analysis engine.

The electrical solver core (interpolation engine, component transfer
functions, fixed-point relaxation, limit checking, battery-life
estimation) is modelled in Lean over exact rational arithmetic, and the
documented properties of the engine are proved against this model.
-/

namespace Sysloss

/-! ## Interpolation Engine -/

/-- Modelled from the spec: the 1-D linear interpolation lookup of the
Interpolation Engine (the Python implementation of sysloss is not in the
sources; only its fixtures are).  Given breakpoint abscissas `xs` and
ordinates `ys`, returns the piecewise-linear interpolant at `x`, clamping
`x` to the breakpoint range (no extrapolation). -/
def interp1 : List ℚ → List ℚ → ℚ → ℚ
  | x0 :: x1 :: xr, y0 :: y1 :: yr, x =>
    if x ≤ x0 then y0
    else if x ≤ x1 then y0 + (y1 - y0) * (x - x0) / (x1 - x0)
    else interp1 (x1 :: xr) (y1 :: yr) x
  | [_], [y0], _ => y0
  | _, _, _ => 0

/-- Modelled from the spec: the 2-D multilinear lookup, a bilinear
interpolation obtained by interpolating along the second axis in each
grid row and then along the first axis. -/
def interp2 (xs ys : List ℚ) (zss : List (List ℚ)) (x y : ℚ) : ℚ :=
  interp1 xs (zss.map fun row => interp1 ys row y) x

/-- Clamp a query coordinate to the `[head, last]` breakpoint range. -/
def clampA (xs : List ℚ) (x : ℚ) : ℚ :=
  match xs with
  | [] => x
  | x0 :: xr => min (max x x0) (xr.getLastD x0)

theorem interp1_nil (ys : List ℚ) (x : ℚ) : interp1 [] ys x = 0 := by
  cases ys <;> rfl

theorem interp1_one (x0 y0 x : ℚ) : interp1 [x0] [y0] x = y0 := rfl

theorem interp1_cons (x0 x1 y0 y1 : ℚ) (xr yr : List ℚ) (x : ℚ) :
    interp1 (x0 :: x1 :: xr) (y0 :: y1 :: yr) x =
      if x ≤ x0 then y0
      else if x ≤ x1 then y0 + (y1 - y0) * (x - x0) / (x1 - x0)
      else interp1 (x1 :: xr) (y1 :: yr) x := rfl

/-- Every element of a strictly increasing cons-list is at least the head. -/
theorem head_le_of_chain (x0 : ℚ) (xr : List ℚ) (h : List.Chain' (· < ·) (x0 :: xr)) :
    ∀ a ∈ x0 :: xr, x0 ≤ a := by
  intro a ha
  rcases List.mem_cons.mp ha with rfl | ha
  · exact le_refl a
  · rcases List.chain'_cons'.mp h with ⟨_, _⟩
    have := List.chain'_iff_pairwise.mp h
    exact le_of_lt ((List.pairwise_cons.mp this).1 a ha)

theorem interp1_at_breakpoint :
    ∀ (xs ys : List ℚ), List.Chain' (· < ·) xs → xs.length = ys.length →
      ∀ i, i < xs.length → interp1 xs ys (xs.getD i 0) = ys.getD i 0 := by
  intro xs
  induction xs with
  | nil => intro ys _ _ i hi; exact absurd hi (by simp)
  | cons x0 xt ih =>
    intro ys hc hlen i hi
    match ys with
    | [] => exact absurd hlen (by simp)
    | y0 :: yt =>
      match i with
      | 0 =>
        match xt, yt with
        | [], [] => simp [interp1_one]
        | x1 :: xr, y1 :: yr =>
          simp only [List.getD]
          simp [interp1_cons]
        | [], _ :: _ => exact absurd hlen (by simp)
        | _ :: _, [] => exact absurd hlen (by simp)
      | j + 1 =>
        match xt, yt with
        | [], _ => simp at hi
        | x1 :: xr, [] => exact absurd hlen (by simp)
        | x1 :: xr, y1 :: yr =>
          have hx01 : x0 < x1 := (List.chain'_cons.mp hc).1
          have hc' : List.Chain' (· < ·) (x1 :: xr) := (List.chain'_cons.mp hc).2
          have hlen' : (x1 :: xr).length = (y1 :: yr).length := by
            simpa using hlen
          have hj : j < (x1 :: xr).length := by simpa using hi
          have hmem : (x1 :: xr).getD j 0 ∈ x1 :: xr := by
            rw [List.getD_eq_getElem _ _ hj]; exact List.getElem_mem _
          have hv : x1 ≤ (x1 :: xr).getD j 0 :=
            head_le_of_chain x1 xr hc' _ hmem
          have hv0 : ¬ (x1 :: xr).getD j 0 ≤ x0 := by
            intro hle; exact absurd (lt_of_lt_of_le hx01 (le_trans hv hle)) (lt_irrefl x0)
          rw [List.getD_cons_succ, List.getD_cons_succ, interp1_cons]
          rw [if_neg hv0]
          match j with
          | 0 =>
            simp only [List.getD_cons_zero]
            rw [if_pos (le_refl x1)]
            have hne : x1 - x0 ≠ 0 := sub_ne_zero.mpr (ne_of_gt hx01)
            field_simp
          | k + 1 =>
            have hx12 : ∀ a ∈ xr, x1 < a := by
              have := List.chain'_iff_pairwise.mp hc'
              exact (List.pairwise_cons.mp this).1
            have hk : k < xr.length := by simpa using hj
            have hmem2 : xr.getD k 0 ∈ xr := by
              rw [List.getD_eq_getElem _ _ hk]; exact List.getElem_mem _
            have hv1 : x1 < xr.getD k 0 := hx12 _ hmem2
            rw [List.getD_cons_succ]
            rw [if_neg (not_le.mpr hv1)]
            have := ih (y1 :: yr) hc' hlen' (k + 1) (by simpa using hj)
            rw [List.getD_cons_succ, List.getD_cons_succ] at this
            exact this

theorem interp1_below :
    ∀ (x0 : ℚ) (xr : List ℚ) (y0 : ℚ) (yr : List ℚ) (x : ℚ), x ≤ x0 →
      (x0 :: xr).length = (y0 :: yr).length →
      interp1 (x0 :: xr) (y0 :: yr) x = y0 := by
  intro x0 xr y0 yr x hx hlen
  match xr, yr with
  | [], [] => exact interp1_one x0 y0 x
  | x1 :: xr', y1 :: yr' => rw [interp1_cons, if_pos hx]
  | [], _ :: _ => exact absurd hlen (by simp)
  | _ :: _, [] => exact absurd hlen (by simp)

theorem interp1_above :
    ∀ (xs ys : List ℚ), List.Chain' (· < ·) xs → xs.length = ys.length →
      ∀ x, xs.getLastD 0 ≤ x →
        interp1 xs ys x = ys.getLastD 0 := by
  intro xs
  induction xs with
  | nil => intro ys _ hlen x _; rw [interp1_nil]; cases ys with
    | nil => rfl
    | cons y yt => exact absurd hlen (by simp)
  | cons x0 xt ih =>
    intro ys hc hlen x hx
    match ys with
    | [] => exact absurd hlen (by simp)
    | y0 :: yt =>
      match xt, yt with
      | [], [] => exact interp1_one x0 y0 x
      | [], _ :: _ => exact absurd hlen (by simp)
      | _ :: _, [] => exact absurd hlen (by simp)
      | x1 :: xr, y1 :: yr =>
        have hx01 : x0 < x1 := (List.chain'_cons.mp hc).1
        have hc' : List.Chain' (· < ·) (x1 :: xr) := (List.chain'_cons.mp hc).2
        have hlast : x1 ≤ (x1 :: xr).getLastD 0 := by
          have : (x1 :: xr).getLast (by simp) ∈ x1 :: xr := List.getLast_mem _
          have h2 := head_le_of_chain x1 xr hc' _ this
          rwa [List.getLastD_eq_getLast?, List.getLast?_eq_getLast _ (by simp),
            Option.getD_some]
        have hlast0 : (x0 :: x1 :: xr).getLastD 0 = (x1 :: xr).getLastD 0 := by
          rw [List.getLastD_eq_getLast?, List.getLastD_eq_getLast?,
            List.getLast?_eq_getLast _ (by simp), List.getLast?_eq_getLast _ (by simp),
            List.getLast_cons_cons]
        rw [hlast0] at hx
        have hxx1 : x1 ≤ x := le_trans hlast hx
        have hxx0 : ¬ x ≤ x0 := not_le.mpr (lt_of_lt_of_le hx01 hxx1)
        rw [interp1_cons, if_neg hxx0]
        have hylast : ((y0 : ℚ) :: y1 :: yr).getLastD 0 = (y1 :: yr).getLastD 0 := by
          rw [List.getLastD_eq_getLast?, List.getLastD_eq_getLast?,
            List.getLast?_eq_getLast _ (by simp), List.getLast?_eq_getLast _ (by simp),
            List.getLast_cons_cons]
        rw [hylast]
        by_cases hx1 : x ≤ x1
        · have hxeq : x = x1 := le_antisymm hx1 hxx1
          match xr, yr with
          | [], [] =>
            rw [if_pos hx1]
            have hne : x1 - x0 ≠ 0 := sub_ne_zero.mpr (ne_of_gt hx01)
            subst hxeq
            simp only [List.getLastD]
            field_simp
          | [], _ :: _ => exact absurd hlen (by simp)
          | _ :: _, [] => exact absurd hlen (by simp)
          | x2 :: xr', y2 :: yr' =>
            have hx12 : x1 < x2 := (List.chain'_cons.mp hc').1
            have hlast2 : x2 ≤ (x2 :: xr').getLastD 0 := by
              have hc'' : List.Chain' (· < ·) (x2 :: xr') := (List.chain'_cons.mp hc').2
              have hm : (x2 :: xr').getLast (by simp) ∈ x2 :: xr' := List.getLast_mem _
              have h2 := head_le_of_chain x2 xr' hc'' _ hm
              rwa [List.getLastD_eq_getLast?, List.getLast?_eq_getLast _ (by simp),
                Option.getD_some]
            have : (x1 :: x2 :: xr').getLastD 0 = (x2 :: xr').getLastD 0 := by
              rw [List.getLastD_eq_getLast?, List.getLastD_eq_getLast?,
                List.getLast?_eq_getLast _ (by simp), List.getLast?_eq_getLast _ (by simp),
                List.getLast_cons_cons]
            rw [this] at hx
            exact absurd (le_trans hlast2 hx) (not_le.mpr (lt_of_le_of_lt hx1 hx12))
        · rw [if_neg hx1]
          exact ih (y1 :: yr) hc' (by simpa using hlen) x hx

theorem getLastD_irrel (x1 : ℚ) (xr : List ℚ) (a b : ℚ) :
    (x1 :: xr).getLastD a = (x1 :: xr).getLastD b := by
  rw [List.getLastD_eq_getLast?, List.getLastD_eq_getLast?,
    List.getLast?_eq_getLast _ (by simp)]
  rfl

theorem getLastD_cons_cons (x0 x1 : ℚ) (xr : List ℚ) (d : ℚ) :
    (x0 :: x1 :: xr).getLastD d = (x1 :: xr).getLastD d := by
  rw [List.getLastD_eq_getLast?, List.getLastD_eq_getLast?,
    List.getLast?_eq_getLast _ (by simp), List.getLast?_eq_getLast _ (by simp),
    List.getLast_cons_cons]

theorem head_le_getLastD (x1 : ℚ) (xr : List ℚ) (d : ℚ)
    (hc : List.Chain' (· < ·) (x1 :: xr)) : x1 ≤ (x1 :: xr).getLastD d := by
  have hm : (x1 :: xr).getLast (by simp) ∈ x1 :: xr := List.getLast_mem _
  have h2 := head_le_of_chain x1 xr hc _ hm
  rwa [List.getLastD_eq_getLast?, List.getLast?_eq_getLast _ (by simp),
    Option.getD_some]

theorem interp1_clamp :
    ∀ (xs ys : List ℚ), List.Chain' (· < ·) xs → xs.length = ys.length →
      ∀ x, interp1 xs ys x = interp1 xs ys (clampA xs x) := by
  intro xs ys hc hlen x
  match xs, ys with
  | [], _ => simp [clampA]
  | [x0], [y0] => rw [interp1_one, interp1_one]
  | [_], [] => exact absurd hlen (by simp)
  | [_], _ :: _ :: _ => exact absurd hlen (by simp)
  | _ :: _ :: _, [] => exact absurd hlen (by simp)
  | x0 :: x1 :: xr, y0 :: yt =>
    have hx01 : x0 < x1 := (List.chain'_cons.mp hc).1
    have hc' : List.Chain' (· < ·) (x1 :: xr) := (List.chain'_cons.mp hc).2
    have hL : x1 ≤ (x1 :: xr).getLastD x0 := head_le_getLastD x1 xr x0 hc'
    show interp1 (x0 :: x1 :: xr) (y0 :: yt) x =
      interp1 (x0 :: x1 :: xr) (y0 :: yt) (min (max x x0) ((x1 :: xr).getLastD x0))
    by_cases h0 : x ≤ x0
    · have hmax : max x x0 = x0 := max_eq_right h0
      have hmin : min x0 ((x1 :: xr).getLastD x0) = x0 :=
        min_eq_left (le_trans (le_of_lt hx01) hL)
      rw [hmax, hmin, interp1_below x0 (x1 :: xr) y0 yt x h0 hlen,
        interp1_below x0 (x1 :: xr) y0 yt x0 (le_refl x0) hlen]
    · have hmax : max x x0 = x := max_eq_left (le_of_not_le h0)
      rw [hmax]
      by_cases hH : (x1 :: xr).getLastD x0 ≤ x
      · have hmin : min x ((x1 :: xr).getLastD x0) = (x1 :: xr).getLastD x0 :=
          min_eq_right hH
        rw [hmin]
        have hLs : (x0 :: x1 :: xr).getLastD 0 = (x1 :: xr).getLastD x0 := by
          rw [getLastD_cons_cons]; exact getLastD_irrel x1 xr 0 x0
        rw [interp1_above (x0 :: x1 :: xr) (y0 :: yt) hc hlen x (hLs ▸ hH),
          interp1_above (x0 :: x1 :: xr) (y0 :: yt) hc hlen _ (le_of_eq hLs)]
      · have hmin : min x ((x1 :: xr).getLastD x0) = x :=
          min_eq_left (le_of_lt (lt_of_not_le hH))
        rw [hmin]

theorem interp1_nil_right (xs : List ℚ) (x : ℚ) : interp1 xs [] x = 0 := by
  match xs with
  | [] => rfl
  | [_] => rfl
  | _ :: _ :: _ => rfl

theorem interp2_at_breakpoint :
    ∀ (xs ys : List ℚ) (zss : List (List ℚ)),
      List.Chain' (· < ·) xs → List.Chain' (· < ·) ys →
      zss.length = xs.length → (∀ row ∈ zss, row.length = ys.length) →
      ∀ i j, i < xs.length → j < ys.length →
        interp2 xs ys zss (xs.getD i 0) (ys.getD j 0) = (zss.getD i []).getD j 0 := by
  intro xs ys zss hcx hcy hlz hrow i j hi hj
  unfold interp2
  have hlenm : xs.length = (zss.map fun row => interp1 ys row (ys.getD j 0)).length := by
    simp [hlz]
  have h1 := interp1_at_breakpoint xs (zss.map fun row => interp1 ys row (ys.getD j 0))
    hcx hlenm i hi
  rw [h1]
  have hfnil : interp1 ys [] (ys.getD j 0) = 0 := interp1_nil_right ys _
  have h2 := List.getD_map (l := zss) (d := ([] : List ℚ)) (n := i)
    (fun row => interp1 ys row (ys.getD j 0))
  simp only [hfnil] at h2
  rw [h2]
  by_cases hiz : i < zss.length
  · have hmem : zss.getD i [] ∈ zss := by
      rw [List.getD_eq_getElem _ _ hiz]; exact List.getElem_mem _
    exact interp1_at_breakpoint ys (zss.getD i []) hcy ((hrow _ hmem).symm) j hj
  · exact absurd (hlz ▸ hi) hiz

theorem interp2_clamp :
    ∀ (xs ys : List ℚ) (zss : List (List ℚ)),
      List.Chain' (· < ·) xs → List.Chain' (· < ·) ys →
      zss.length = xs.length → (∀ row ∈ zss, row.length = ys.length) →
      ∀ x y, interp2 xs ys zss x y = interp2 xs ys zss (clampA xs x) (clampA ys y) := by
  intro xs ys zss hcx hcy hlz hrow x y
  unfold interp2
  have hmap : (zss.map fun row => interp1 ys row y) =
      zss.map fun row => interp1 ys row (clampA ys y) := by
    apply List.map_congr_left
    intro row hr
    exact interp1_clamp ys row hcy ((hrow _ hr).symm) y
  rw [hmap]
  exact interp1_clamp xs _ hcx (by simp [hlz]) x

/-! ## Interpolation Table construction -/

/-- Boolean strict-increase check on a breakpoint axis. -/
def strictIncB : List ℚ → Bool
  | [] => true
  | [_] => true
  | x0 :: x1 :: xr => decide (x0 < x1) && strictIncB (x1 :: xr)

theorem strictIncB_iff :
    ∀ xs : List ℚ, strictIncB xs = true ↔ List.Chain' (· < ·) xs := by
  intro xs
  match xs with
  | [] => simp [strictIncB]
  | [x0] => simp [strictIncB]
  | x0 :: x1 :: xr =>
    rw [List.chain'_cons]
    have ih := strictIncB_iff (x1 :: xr)
    simp only [strictIncB, Bool.and_eq_true, decide_eq_true_eq]
    exact and_congr Iff.rfl ih

/-- Modelled from the spec: a validated 1-D interpolation table
(strictly increasing axis, value list of matching length). -/
structure Table1 where
  xs : List ℚ
  ys : List ℚ

/-- Modelled from the spec: a validated 2-D interpolation table. -/
structure Table2 where
  xs : List ℚ
  ys : List ℚ
  zss : List (List ℚ)

/-- Modelled from the spec: Table construction fails with a malformed-table
error if axis arrays are not strictly increasing or if the matrix shape
disagrees with axis lengths (1-D case). -/
def mkTable1 (xs ys : List ℚ) : Except String Table1 :=
  if strictIncB xs && (ys.length == xs.length) then .ok ⟨xs, ys⟩
  else .error "malformed table"

/-- Modelled from the spec: 2-D table construction with the same checks. -/
def mkTable2 (xs ys : List ℚ) (zss : List (List ℚ)) : Except String Table2 :=
  if strictIncB xs && strictIncB ys && (zss.length == xs.length)
      && zss.all (fun row => row.length == ys.length) then .ok ⟨xs, ys, zss⟩
  else .error "malformed table"

/-- Whether construction succeeded. -/
def okB {α : Type} : Except String α → Bool
  | .ok _ => true
  | .error _ => false

/-! ## Component Model -/

/-- Per-observable min/max bounds, as stored in the repository's system
fixtures (`limits` sections with keys vi, vo, ii, io, pi, po, pl, tr, tp). -/
structure Limits where
  vinB : ℚ × ℚ
  voutB : ℚ × ℚ
  iinB : ℚ × ℚ
  ioutB : ℚ × ℚ
  pinB : ℚ × ℚ
  poutB : ℚ × ℚ
  plossB : ℚ × ℚ
  triseB : ℚ × ℚ
  tpeakB : ℚ × ℚ
deriving DecidableEq

/-- The default limits a component receives when none are specified,
taken from the repository fixture `tests/data` and the serialized system
document: `[0, 1e6]` for every observable except peak temperature, which
gets `[-1e6, 1e6]`. -/
def defaultLimits : Limits :=
  ⟨(0, 1000000), (0, 1000000), (0, 1000000), (0, 1000000), (0, 1000000),
   (0, 1000000), (0, 1000000), (0, 1000000), (-1000000, 1000000)⟩

/-- Modelled from the spec: the component variants of the Component Model
needed by the fixtures (Source, Converter, series loss, power load,
current load, resChain load), with their scalar parameters. -/
inductive CompType where
  | source (vs rs : ℚ) : CompType
  | converter (vo eff qp : ℚ) : CompType
  | sloss (rs : ℚ) : CompType
  | pload (pwr : ℚ) : CompType
  | iload (ic : ℚ) : CompType
  | rload (rs : ℚ) : CompType
deriving DecidableEq

/-- A component: unique name, variant, limits, thermal resistance,
active-phase set (empty means active in every phase), and the per-phase
active-state flag the solver toggles transiently. -/
structure Comp where
  name : String
  ctype : CompType
  lims : Limits
  rt : ℚ
  phaseList : List String
  active : Bool
deriving DecidableEq

/-- Constructor used when the user specifies no limits: the component
receives `defaultLimits` (as every component of the repository fixture
documents does). -/
def mkComp (n : String) (t : CompType) : Comp :=
  ⟨n, t, defaultLimits, 0, [], true⟩

/-- Modelled from the spec: each variant's input-current transfer
function, given input voltage `vi` and aggregate output current `w`
demanded by the children.  An inactive (off) component contributes zero
current. -/
def evalII (c : Comp) (vi w : ℚ) : ℚ :=
  if c.active then
    match c.ctype with
    | .source _ _ => w
    | .converter vo eff qp => (w * vo + qp) / (eff * vi)
    | .sloss _ => w
    | .pload p => p / vi
    | .iload ic => ic
    | .rload r => vi / r
  else 0

/-- Modelled from the spec: each variant's output-voltage transfer
function.  An inactive pass-through component forwards `vi` unchanged. -/
def evalVO (c : Comp) (vi w : ℚ) : ℚ :=
  if c.active then
    match c.ctype with
    | .source vs rs => vs - w * rs
    | .converter vo _ _ => vo
    | .sloss rs => vi - w * rs
    | .pload _ => vi
    | .iload _ => vi
    | .rload _ => vi
  else vi

/-! ## Topology Graph -/

mutual
/-- A rooted power tree of components. -/
inductive PTree where
  | node : Comp → PForest → PTree
deriving DecidableEq
/-- The ordered children of a node (insertion order). -/
inductive PForest where
  | fnil : PForest
  | fcons : PTree → PForest → PForest
deriving DecidableEq
end

mutual
/-- Solver state: each node annotated with its current `vi` and output
current `w` estimates. -/
inductive STree where
  | node : Comp → ℚ → ℚ → SForest → STree
deriving DecidableEq
inductive SForest where
  | fnil : SForest
  | fcons : STree → SForest → SForest
deriving DecidableEq
end

/-! ## Solver -/

mutual
/-- Initial state: every `w` estimate is 0; a root source starts at its
set voltage, every other `vi` starts at 0 until the first propagation. -/
def buildT : PTree → STree
  | .node c f =>
    .node c (match c.ctype with | .source vs _ => vs | _ => 0) 0 (buildF f)
def buildF : PForest → SForest
  | .fnil => .fnil
  | .fcons t f => .fcons (buildT t) (buildF f)
end

mutual
/-- Modelled from the spec: the bottom-up relaxation pass.  Children are
visited first (in insertion order); each node's `w` becomes the sum of
its children's input currents, and the node's own input current is
returned as its contribution to the parent. -/
def buT : STree → STree × ℚ
  | .node c vi _ f =>
    let r := buF f
    (.node c vi r.2 r.1, evalII c vi r.2)
def buF : SForest → SForest × ℚ
  | .fnil => (.fnil, 0)
  | .fcons t f =>
    let a := buT t
    let b := buF f
    (.fcons a.1 b.1, a.2 + b.2)
end

mutual
/-- Modelled from the spec: the top-down pass; each node receives its new
`vi` from the parent's freshly computed output voltage. -/
def tdT (v : ℚ) : STree → STree
  | .node c _ w f => .node c v w (tdF (evalVO c v w) f)
def tdF (v : ℚ) : SForest → SForest
  | .fnil => .fnil
  | .fcons t rest => .fcons (tdT v t) (tdF v rest)
end

/-- Top-down pass from the root (the root keeps its stored `vi`). -/
def tdRoot : STree → STree
  | .node c vi w f => .node c vi w (tdF (evalVO c vi w) f)

/-- Initialization: nominal voltages (zero-current top-down pass). -/
def initState (t : PTree) : STree := tdRoot (buildT t)

/-- One relaxation iteration: bottom-up then top-down. -/
def stepS (s : STree) : STree := tdRoot (buT s).1

/-- Relative change between two successive values of an observable. -/
def relCh (a b : ℚ) : ℚ :=
  if a = 0 ∧ b = 0 then 0 else |b - a| / max |a| |b|

mutual
/-- Maximum relative change of any node's `vi` or `w` between states. -/
def mrcT : STree → STree → ℚ
  | .node _ vi w f, .node _ vi' w' f' =>
    max (max (relCh vi vi') (relCh w w')) (mrcF f f')
def mrcF : SForest → SForest → ℚ
  | .fnil, _ => 0
  | .fcons _ _, .fnil => 0
  | .fcons t f, .fcons t' f' => max (mrcT t t') (mrcF f f')
end

/-- Modelled from the spec: the relaxation loop, repeated up to the
iteration cap; converged when the maximum relative change falls below
the tolerance.  Returns the final state, the convergence flag and the
number of iterations performed. -/
def relax (tol : ℚ) : Nat → STree → STree × Bool × Nat
  | 0, s => (s, false, 0)
  | n + 1, s =>
    let s' := stepS s
    if mrcT s s' < tol then (s', true, 1)
    else
      let r := relax tol n s'
      (r.1, r.2.1, r.2.2 + 1)

/-! ## Result Rows and limit checking -/

/-- One Result Row: component name, solved electrical values, and the
list of warning strings attached by limit checking. -/
structure Row where
  name : String
  vin : ℚ
  vout : ℚ
  iin : ℚ
  iout : ℚ
  pin : ℚ
  pout : ℚ
  ploss : ℚ
  trise : ℚ
  tpeak : ℚ
  warns : List String
deriving DecidableEq

/-- Check one observable against its bounds, yielding a warning naming
the violated bound. -/
def chk (lo hi : String) (b : ℚ × ℚ) (v : ℚ) : List String :=
  (if v < b.1 then [lo] else []) ++ (if b.2 < v then [hi] else [])

/-- Modelled from the spec: limit checking of every produced value
(including `vi` and `io` themselves) against the configured Limits. -/
def checkLimits (L : Limits) (vi vo ii w pi2 po2 pl2 tr2 tp2 : ℚ) : List String :=
  chk "vi below min" "vi above max" L.vinB vi ++
  chk "vo below min" "vo above max" L.voutB vo ++
  chk "ii below min" "ii above max" L.iinB ii ++
  chk "io below min" "io above max" L.ioutB w ++
  chk "pi below min" "pi above max" L.pinB pi2 ++
  chk "po below min" "po above max" L.poutB po2 ++
  chk "pl below min" "pl above max" L.plossB pl2 ++
  chk "tr below min" "tr above max" L.triseB tr2 ++
  chk "tp below min" "tp above max" L.tpeakB tp2

mutual
/-- Row trees mirroring the topology, so that parent/child relations of
the emitted rows remain visible. -/
inductive RTree where
  | node : Row → RForest → RTree
deriving DecidableEq
inductive RForest where
  | fnil : RForest
  | fcons : RTree → RForest → RForest
deriving DecidableEq
end

mutual
/-- Modelled from the spec: on exit from the relaxation, evaluate every
node once more bottom-up at the final voltages, compute powers, loss,
peak temperature (ambient + loss x thermal resistance) and run limit
checks, emitting one Result Row per component.  Returns the row tree and
the node's input current. -/
def rowT (amb : ℚ) : STree → RTree × ℚ
  | .node c vi _ f =>
    let r := rowF amb f
    let ii := evalII c vi r.2
    let vo := evalVO c vi r.2
    let pi2 := vi * ii
    let po2 := vo * r.2
    let pl2 := pi2 - po2
    let tr2 := pl2 * c.rt
    let tp2 := amb + tr2
    (.node ⟨c.name, vi, vo, ii, r.2, pi2, po2, pl2, tr2, tp2,
      checkLimits c.lims vi vo ii r.2 pi2 po2 pl2 tr2 tp2⟩ r.1, ii)
def rowF (amb : ℚ) : SForest → RForest × ℚ
  | .fnil => (.fnil, 0)
  | .fcons t f =>
    let a := rowT amb t
    let b := rowF amb f
    (.fcons a.1 b.1, a.2 + b.2)
end

/-- Append a warning string to a row. -/
def warnAdd (s : String) (r : Row) : Row :=
  ⟨r.name, r.vin, r.vout, r.iin, r.iout, r.pin, r.pout, r.ploss,
   r.trise, r.tpeak, r.warns ++ [s]⟩

mutual
/-- Attach a warning to every row of a row tree. -/
def addWarnT (s : String) : RTree → RTree
  | .node r f => .node (warnAdd s r) (addWarnF s f)
def addWarnF (s : String) : RForest → RForest
  | .fnil => .fnil
  | .fcons t f => .fcons (addWarnT s t) (addWarnF s f)
end

mutual
/-- Flatten a row tree into the emitted row list (pre-order, children in
insertion order). -/
def rowsT : RTree → List Row
  | .node r f => r :: rowsF f
def rowsF : RForest → List Row
  | .fnil => []
  | .fcons t f => rowsT t ++ rowsF f
end

/-- The default (all-zero) row, used as a lookup fallback. -/
def row0 : Row := ⟨"", 0, 0, 0, 0, 0, 0, 0, 0, 0, []⟩

/-- The i-th emitted row of a row tree. -/
def rowAt (rt : RTree) (i : Nat) : Row := (rowsT rt).getD i row0

/-- Terminal solver states of a phase. -/
inductive SolveStatus where
  | Converged : SolveStatus
  | NonConvergent : SolveStatus
deriving DecidableEq

/-- Modelled from the spec: solve one phase: initialize, relax up to the
iteration cap, emit rows; if the cap was reached without convergence, do
not fail: mark the phase `NonConvergent` and attach a "non-convergent"
warning to every row. -/
def solveOne (tol : ℚ) (cap : Nat) (amb : ℚ) (t : PTree) :
    RTree × SolveStatus × Nat :=
  let r := relax tol cap (initState t)
  let rt0 := (rowT amb r.1).1
  if r.2.1 then (rt0, .Converged, r.2.2)
  else (addWarnT "non-convergent" rt0, .NonConvergent, r.2.2)

/-! ## System, phases and the full solve call -/

/-- A System: name, named phases with duration weights, topology root. -/
structure PSystem where
  sname : String
  phases : List (String × ℚ)
  tree : PTree
deriving DecidableEq

/-- The phase active-state of a component: active when its active-phase
set is empty or contains the phase. -/
def phActive (c : Comp) (p : String) : Bool :=
  c.phaseList.isEmpty || c.phaseList.contains p

/-- Set a component's transient active-state flag for a phase. -/
def setActive (c : Comp) (p : String) : Comp :=
  ⟨c.name, c.ctype, c.lims, c.rt, c.phaseList, phActive c p⟩

/-- Reset a component's transient active-state flag to its default. -/
def clearActive (c : Comp) : Comp :=
  ⟨c.name, c.ctype, c.lims, c.rt, c.phaseList, true⟩

mutual
/-- Set every component's active-state flag for a phase. -/
def setFlagsT (p : String) : PTree → PTree
  | .node c f => .node (setActive c p) (setFlagsF p f)
def setFlagsF (p : String) : PForest → PForest
  | .fnil => .fnil
  | .fcons t f => .fcons (setFlagsT p t) (setFlagsF p f)
end

mutual
/-- Clear every component's active-state flag back to its default. -/
def clearFlagsT : PTree → PTree
  | .node c f => .node (clearActive c) (clearFlagsF f)
def clearFlagsF : PForest → PForest
  | .fnil => .fnil
  | .fcons t f => .fcons (clearFlagsT t) (clearFlagsF f)
end

mutual
/-- Whether every active-state flag holds its default value. -/
def flagsDefaultT : PTree → Bool
  | .node c f => c.active && flagsDefaultF f
def flagsDefaultF : PForest → Bool
  | .fnil => true
  | .fcons t f => flagsDefaultT t && flagsDefaultF f
end

/-- Solve one named phase: set the per-phase flags, then run the
single-phase solver. -/
def solvePhase (tol : ℚ) (cap : Nat) (amb : ℚ) (p : String) (t : PTree) :
    RTree × SolveStatus × Nat :=
  solveOne tol cap amb (setFlagsT p t)

/-- Modelled from the spec: the phase loop of `solve`.  With no phases
defined, a single pass runs with every component active; otherwise one
pass per phase.  Output: per phase, the emitted rows, terminal status
and iteration count. -/
def solveSystem (tol : ℚ) (cap : Nat) (amb : ℚ) (sys : PSystem) :
    List (String × List Row × SolveStatus × Nat) :=
  match sys.phases with
  | [] =>
    let r := solveOne tol cap amb sys.tree
    [("", rowsT r.1, r.2.1, r.2.2)]
  | ps =>
    ps.map fun pr =>
      let r := solvePhase tol cap amb pr.1 sys.tree
      (pr.1, rowsT r.1, r.2.1, r.2.2)

/-- Modelled from the spec: the observable effect of a full solve call on
the System itself: the per-phase active-state flags set during the call
are cleared before it returns.  Returns the rows and the System as left
behind by the call. -/
def solveFull (tol : ℚ) (cap : Nat) (amb : ℚ) (sys : PSystem) :
    List (String × List Row × SolveStatus × Nat) × PSystem :=
  (solveSystem tol cap amb sys, ⟨sys.sname, sys.phases, clearFlagsT sys.tree⟩)

/-! ## Battery-Life Estimator (closed form) -/

/-- The root component's input current of a solved row tree (the current
drawn from the source). -/
def rootII : RTree → ℚ
  | .node r _ => r.iin

/-- Modelled from the spec: battery-life estimation without a discharge
curve: life = capacity / phase-duration-weighted average current, from
one solver pass per phase (a single unit-weight pass when the System has
no phases). -/
def battLife (tol : ℚ) (cap : Nat) (amb : ℚ) (capacity : ℚ)
    (sys : PSystem) : ℚ :=
  let phs := match sys.phases with | [] => [("", (1 : ℚ))] | ps => ps
  let tot := (phs.map Prod.snd).sum
  let wsum := (phs.map fun pr =>
    pr.2 * rootII (solvePhase tol cap amb pr.1 sys.tree).1).sum
  capacity / (wsum / tot)

/-! ## Concrete fixture systems -/

/-- The Bluetooth-sensor example source, from the README and the
serialized fixture: `Source("CR2032", vo=3.0, rs=10)`. -/
def cSrc : Comp := mkComp "CR2032" (.source 3 10)

/-- `Converter("Buck 1.8V", vo=1.8, eff=0.87)` with zero quiescent power. -/
def cConv : Comp := mkComp "Buck 1.8V" (.converter (9/5) (87/100) 0)

/-- `PLoad("MCU", pwr=13e-3)`. -/
def cLoad : Comp := mkComp "MCU" (.pload (13/1000))

/-- The three-node chain Source → Converter → power load of the energy
example. -/
def btsTree : PTree :=
  .node cSrc (.fcons (.node cConv (.fcons (.node cLoad .fnil) .fnil)) .fnil)

/-- The `12V` source of the `System v1.0.0` fixture: vo=12, rs=0.035,
with a user output-current limit of `[0, 3.0]` and default limits
elsewhere. -/
def src12 : Comp :=
  ⟨"12V", .source 12 (7/200),
   ⟨(0, 1000000), (0, 1000000), (0, 1000000), (0, 3), (0, 1000000),
    (0, 1000000), (0, 1000000), (0, 1000000), (-1000000, 1000000)⟩,
   0, [], true⟩

/-- A constant-current load that pulls 3.5 A, violating the source's
output-current limit. -/
def load35 : Comp := mkComp "Load35" (.iload (7/2))

/-- Two-node system whose solve exhibits a limit violation. -/
def limTree : PTree := .node src12 (.fcons (.node load35 .fnil) .fnil)

/-- A battery source feeding one constant-current load. -/
def battTree (vs rs ic : ℚ) : PTree :=
  .node (mkComp "Battery" (.source vs rs))
    (.fcons (.node (mkComp "Load" (.iload ic)) .fnil) .fnil)

/-! ## Claim theorems -/

/-- Claim C2: interpolation lookups are exact at breakpoints and clamp
each query coordinate independently to the axis range, returning edge
values and never extrapolating (the lookup is a total function, so no
error can be raised). -/
theorem interp_lookup_spec :
    (∀ xs ys : List ℚ, List.Chain' (· < ·) xs → xs.length = ys.length →
      (∀ i, i < xs.length → interp1 xs ys (xs.getD i 0) = ys.getD i 0) ∧
      (∀ x, interp1 xs ys x = interp1 xs ys (clampA xs x))) ∧
    (∀ (xs ys : List ℚ) (zss : List (List ℚ)),
      List.Chain' (· < ·) xs → List.Chain' (· < ·) ys →
      zss.length = xs.length → (∀ row ∈ zss, row.length = ys.length) →
      (∀ i j, i < xs.length → j < ys.length →
        interp2 xs ys zss (xs.getD i 0) (ys.getD j 0) = (zss.getD i []).getD j 0) ∧
      (∀ x y, interp2 xs ys zss x y =
        interp2 xs ys zss (clampA xs x) (clampA ys y))) := by
  constructor
  · intro xs ys hc hl
    exact ⟨interp1_at_breakpoint xs ys hc hl, interp1_clamp xs ys hc hl⟩
  · intro xs ys zss hcx hcy hlz hrow
    exact ⟨fun i j hi hj => interp2_at_breakpoint xs ys zss hcx hcy hlz hrow i j hi hj,
      interp2_clamp xs ys zss hcx hcy hlz hrow⟩

/-- Witness for C2 at a concrete table and query points. -/
theorem interp_lookup_spec_witness :
    interp1 [1, 2] [10, 20] (([1, 2] : List ℚ).getD 1 0) =
      ([10, 20] : List ℚ).getD 1 0 ∧
    interp1 [1, 2] [10, 20] 5 = interp1 [1, 2] [10, 20] (clampA [1, 2] 5) ∧
    interp2 [1, 2] [3, 4] [[10, 20], [30, 40]] (([1, 2] : List ℚ).getD 0 0)
        (([3, 4] : List ℚ).getD 1 0) =
      (([[10, 20], [30, 40]] : List (List ℚ)).getD 0 []).getD 1 0 := by
  have hcx : List.Chain' (· < ·) ([1, 2] : List ℚ) := by
    norm_num [List.chain'_cons]
  have hcy : List.Chain' (· < ·) ([3, 4] : List ℚ) := by
    norm_num [List.chain'_cons]
  have hrows : ∀ row ∈ ([[10, 20], [30, 40]] : List (List ℚ)),
      row.length = ([3, 4] : List ℚ).length := by
    intro row hr
    simp only [List.mem_cons, List.not_mem_nil, or_false] at hr
    rcases hr with rfl | rfl <;> simp
  refine ⟨(interp_lookup_spec.1 [1, 2] [10, 20] hcx (by simp)).1 1 (by simp),
    (interp_lookup_spec.1 [1, 2] [10, 20] hcx (by simp)).2 5,
    (interp_lookup_spec.2 [1, 2] [3, 4] [[10, 20], [30, 40]] hcx hcy (by simp)
      hrows).1 0 1 (by simp) (by simp)⟩

/-- Claim C7: interpolation-table construction succeeds exactly when
every axis is strictly increasing and the value matrix's shape agrees
with the axis lengths; otherwise it fails with a malformed-table error. -/
theorem table_construction_iff :
    ∀ (xs ys : List ℚ) (zss : List (List ℚ)),
      (okB (mkTable1 xs ys) = true ↔
        (List.Chain' (· < ·) xs ∧ ys.length = xs.length)) ∧
      (okB (mkTable2 xs ys zss) = true ↔
        (List.Chain' (· < ·) xs ∧ List.Chain' (· < ·) ys ∧
         zss.length = xs.length ∧ ∀ row ∈ zss, row.length = ys.length)) := by
  intro xs ys zss
  have h1 : okB (mkTable1 xs ys) = (strictIncB xs && (ys.length == xs.length)) := by
    unfold mkTable1
    split
    next h => rw [h]; rfl
    next h => rw [Bool.not_eq_true] at h; rw [h]; rfl
  have h2 : okB (mkTable2 xs ys zss) =
      (strictIncB xs && strictIncB ys && (zss.length == xs.length)
        && zss.all fun row => row.length == ys.length) := by
    unfold mkTable2
    split
    next h => rw [h]; rfl
    next h => rw [Bool.not_eq_true] at h; rw [h]; rfl
  constructor
  · rw [h1, Bool.and_eq_true, beq_iff_eq, strictIncB_iff]
  · rw [h2, Bool.and_eq_true, Bool.and_eq_true, Bool.and_eq_true, beq_iff_eq,
      strictIncB_iff, strictIncB_iff, List.all_eq_true]
    constructor
    · rintro ⟨⟨⟨ha, hb⟩, hcl⟩, hall⟩
      exact ⟨ha, hb, hcl, fun row hr => by simpa using hall row hr⟩
    · rintro ⟨ha, hb, hcl, hall⟩
      exact ⟨⟨⟨ha, hb⟩, hcl⟩, fun row hr => by simpa using hall row hr⟩

/-- Claim C4: `solve` is deterministic: identical System and identical
inputs yield identical per-phase rows, statuses, traversal order and
iteration counts. -/
theorem solve_deterministic :
    ∀ (s₁ s₂ : PSystem) (tol₁ tol₂ : ℚ) (cap₁ cap₂ : Nat) (amb₁ amb₂ : ℚ),
      s₁ = s₂ → tol₁ = tol₂ → cap₁ = cap₂ → amb₁ = amb₂ →
      solveSystem tol₁ cap₁ amb₁ s₁ = solveSystem tol₂ cap₂ amb₂ s₂ := by
  intro s₁ s₂ tol₁ tol₂ cap₁ cap₂ amb₁ amb₂ hs ht hc ha
  rw [hs, ht, hc, ha]

/-- Witness for C4 on the README system. -/
theorem solve_deterministic_witness :
    solveSystem (1/1000000) 100 25 ⟨"bts", [], btsTree⟩ =
      solveSystem (1/1000000) 100 25 ⟨"bts", [], btsTree⟩ :=
  solve_deterministic ⟨"bts", [], btsTree⟩ ⟨"bts", [], btsTree⟩
    (1/1000000) (1/1000000) 100 100 25 25 rfl rfl rfl rfl

/-- Claim C10: a component constructed without user limits receives the
default limits of the fixtures (`[0, 1e6]` everywhere, `[-1e6, 1e6]` for
peak temperature), and limit checking under the default limits emits no
warning for values inside those ranges. -/
theorem default_limits_spec :
    ∀ (n : String) (t : CompType), (mkComp n t).lims = defaultLimits ∧
    ∀ vi vo ii w pi2 po2 pl2 tr2 tp2 : ℚ,
      (0 ≤ vi ∧ vi ≤ 1000000) → (0 ≤ vo ∧ vo ≤ 1000000) →
      (0 ≤ ii ∧ ii ≤ 1000000) → (0 ≤ w ∧ w ≤ 1000000) →
      (0 ≤ pi2 ∧ pi2 ≤ 1000000) → (0 ≤ po2 ∧ po2 ≤ 1000000) →
      (0 ≤ pl2 ∧ pl2 ≤ 1000000) → (0 ≤ tr2 ∧ tr2 ≤ 1000000) →
      (-1000000 ≤ tp2 ∧ tp2 ≤ 1000000) →
      checkLimits (mkComp n t).lims vi vo ii w pi2 po2 pl2 tr2 tp2 = [] := by
  intro n t
  refine ⟨rfl, ?_⟩
  intro vi vo ii w pi2 po2 pl2 tr2 tp2 h1 h2 h3 h4 h5 h6 h7 h8 h9
  show checkLimits defaultLimits vi vo ii w pi2 po2 pl2 tr2 tp2 = []
  unfold checkLimits chk defaultLimits
  simp only []
  rw [if_neg (not_lt.mpr h1.1), if_neg (not_lt.mpr h1.2),
    if_neg (not_lt.mpr h2.1), if_neg (not_lt.mpr h2.2),
    if_neg (not_lt.mpr h3.1), if_neg (not_lt.mpr h3.2),
    if_neg (not_lt.mpr h4.1), if_neg (not_lt.mpr h4.2),
    if_neg (not_lt.mpr h5.1), if_neg (not_lt.mpr h5.2),
    if_neg (not_lt.mpr h6.1), if_neg (not_lt.mpr h6.2),
    if_neg (not_lt.mpr h7.1), if_neg (not_lt.mpr h7.2),
    if_neg (not_lt.mpr h8.1), if_neg (not_lt.mpr h8.2),
    if_neg (not_lt.mpr h9.1), if_neg (not_lt.mpr h9.2)]
  rfl

/-- Witness for C10 at concrete in-range values. -/
theorem default_limits_spec_witness :
    (mkComp "X" (.pload 1)).lims = defaultLimits ∧
    checkLimits (mkComp "X" (.pload 1)).lims 1 1 1 1 1 1 1 1 1 = [] :=
  ⟨(default_limits_spec "X" (.pload 1)).1,
   (default_limits_spec "X" (.pload 1)).2 1 1 1 1 1 1 1 1 1
     (by norm_num) (by norm_num) (by norm_num) (by norm_num) (by norm_num)
     (by norm_num) (by norm_num) (by norm_num) (by norm_num)⟩

/-! ## Current conservation (C1) -/

/-- The input current reported by the root row of a row tree. -/
def topII : RTree → ℚ
  | .node r _ => r.iin

/-- Sum of the input currents reported by a forest of row trees. -/
def sumIIF : RForest → ℚ
  | .fnil => 0
  | .fcons t f => topII t + sumIIF f

mutual
/-- Current conservation of a row tree: every node's output current
equals the sum of its children's reported input currents. -/
def consT : RTree → Prop
  | .node r f => r.iout = sumIIF f ∧ consF f
def consF : RForest → Prop
  | .fnil => True
  | .fcons t f => consT t ∧ consF f
end

theorem rowT_ii (amb : ℚ) (s : STree) :
    (rowT amb s).2 = topII (rowT amb s).1 := by
  cases s with
  | node c vi w f => simp [rowT, topII]

theorem rowF_ii : ∀ (amb : ℚ) (f : SForest),
    (rowF amb f).2 = sumIIF (rowF amb f).1
  | _, .fnil => by simp [rowF, sumIIF]
  | amb, .fcons t f => by
    have ih := rowF_ii amb f
    have h1 := rowT_ii amb t
    simp only [rowF, sumIIF]
    rw [← h1, ← ih]

mutual
theorem consT_rowT : ∀ (amb : ℚ) (s : STree), consT (rowT amb s).1
  | amb, .node c vi w f => by
    have hf := consF_rowF amb f
    have hii := rowF_ii amb f
    simp only [rowT, consT]
    exact ⟨hii, hf⟩
theorem consF_rowF : ∀ (amb : ℚ) (f : SForest), consF (rowF amb f).1
  | _, .fnil => by simp [rowF, consF]
  | amb, .fcons t f => by
    have h1 := consT_rowT amb t
    have h2 := consF_rowF amb f
    simp only [rowF, consF]
    exact ⟨h1, h2⟩
end

theorem topII_addWarn (s : String) (rt : RTree) :
    topII (addWarnT s rt) = topII rt := by
  cases rt with
  | node r f => simp [addWarnT, warnAdd, topII]

theorem sumIIF_addWarn : ∀ (s : String) (f : RForest),
    sumIIF (addWarnF s f) = sumIIF f
  | _, .fnil => by simp [addWarnF, sumIIF]
  | s, .fcons t f => by
    have ih := sumIIF_addWarn s f
    simp only [addWarnF, sumIIF, ih, topII_addWarn]

mutual
theorem consT_addWarn : ∀ (s : String) (rt : RTree), consT rt → consT (addWarnT s rt)
  | s, .node r f, h => by
    simp only [consT] at h
    simp only [addWarnT, consT, warnAdd, sumIIF_addWarn]
    exact ⟨h.1, consF_addWarn s f h.2⟩
theorem consF_addWarn : ∀ (s : String) (f : RForest), consF f → consF (addWarnF s f)
  | _, .fnil, _ => by simp [addWarnF, consF]
  | s, .fcons t f, h => by
    simp only [consF] at h
    simp only [addWarnF, consF]
    exact ⟨consT_addWarn s t h.1, consF_addWarn s f h.2⟩
end

theorem solveOne_eq (tol : ℚ) (cap : Nat) (amb : ℚ) (t : PTree) :
    solveOne tol cap amb t =
      if (relax tol cap (initState t)).2.1 then
        ((rowT amb (relax tol cap (initState t)).1).1, SolveStatus.Converged,
          (relax tol cap (initState t)).2.2)
      else
        (addWarnT "non-convergent" (rowT amb (relax tol cap (initState t)).1).1,
          SolveStatus.NonConvergent, (relax tol cap (initState t)).2.2) := rfl

/-- Claim C1: at solver convergence, every node's output current value
used in its evaluation equals the sum of the input currents reported by
its children in the emitted rows of that phase. -/
theorem current_conservation :
    ∀ (tol : ℚ) (cap : Nat) (amb : ℚ) (t : PTree),
      (solveOne tol cap amb t).2.1 = SolveStatus.Converged →
      consT (solveOne tol cap amb t).1 := by
  intro tol cap amb t
  rw [solveOne_eq]
  by_cases hb : (relax tol cap (initState t)).2.1 = true
  · rw [if_pos hb]; intro _; exact consT_rowT amb _
  · rw [if_neg hb]; intro _; exact consT_addWarn _ _ (consT_rowT amb _)

/-! ## Non-convergence handling (C5) -/

mutual
theorem mem_addWarnT : ∀ (s : String) (rt : RTree) (r : Row),
    r ∈ rowsT (addWarnT s rt) → s ∈ r.warns
  | s, .node r0 f, r, h => by
    simp only [addWarnT, rowsT, List.mem_cons] at h
    rcases h with rfl | h
    · simp [warnAdd]
    · exact mem_addWarnF s f r h
theorem mem_addWarnF : ∀ (s : String) (f : RForest) (r : Row),
    r ∈ rowsF (addWarnF s f) → s ∈ r.warns
  | s, .fnil, r, h => by simp [addWarnF, rowsF] at h
  | s, .fcons t f, r, h => by
    simp only [addWarnF, rowsF, List.mem_append] at h
    rcases h with h | h
    · exact mem_addWarnT s t r h
    · exact mem_addWarnF s f r h
end

/-- Claim C5: reaching the iteration cap without meeting the convergence
test does not raise: the phase ends in the `NonConvergent` state and
every emitted row of that phase carries a "non-convergent" warning. -/
theorem nonconvergent_warns :
    ∀ (tol : ℚ) (cap : Nat) (amb : ℚ) (t : PTree),
      (solveOne tol cap amb t).2.1 = SolveStatus.NonConvergent →
      ∀ r ∈ rowsT (solveOne tol cap amb t).1, "non-convergent" ∈ r.warns := by
  intro tol cap amb t
  rw [solveOne_eq]
  by_cases hb : (relax tol cap (initState t)).2.1 = true
  · rw [if_pos hb]; intro h; exact absurd h (by simp)
  · rw [if_neg hb]; intro _ r hr; exact mem_addWarnT _ _ _ hr

/-! ## Solve leaves the System unchanged (C9) -/

mutual
theorem clearFlagsT_id : ∀ t : PTree, flagsDefaultT t = true → clearFlagsT t = t
  | .node c f, h => by
    simp only [flagsDefaultT, Bool.and_eq_true] at h
    have hf := clearFlagsF_id f h.2
    simp only [clearFlagsT, hf]
    cases c with
    | mk nm ct lm rt2 pl ac =>
      have hac : ac = true := h.1
      subst hac
      rfl
theorem clearFlagsF_id : ∀ f : PForest, flagsDefaultF f = true → clearFlagsF f = f
  | .fnil, _ => rfl
  | .fcons t f, h => by
    simp only [flagsDefaultF, Bool.and_eq_true] at h
    simp only [clearFlagsF, clearFlagsT_id t h.1, clearFlagsF_id f h.2]
end

/-- Claim C9: a solve call leaves the System unchanged: the rows are
fresh values and the per-phase active-state flags set during the call
are cleared before it returns, so the System observable after `solve`
equals the one before (whenever the flags start in their default
state, as constructed). -/
theorem solve_preserves_system :
    ∀ (tol : ℚ) (cap : Nat) (amb : ℚ) (sys : PSystem),
      flagsDefaultT sys.tree = true →
      (solveFull tol cap amb sys).2 = sys := by
  intro tol cap amb sys h
  unfold solveFull
  cases sys with
  | mk n ps t =>
    simp only at h
    simp only [clearFlagsT_id t h]

/-- Witness for C9 on the README system. -/
theorem solve_preserves_system_witness :
    flagsDefaultT btsTree = true ∧
    (solveFull 1 1 0 ⟨"bts", [], btsTree⟩).2 = ⟨"bts", [], btsTree⟩ :=
  ⟨rfl, solve_preserves_system 1 1 0 ⟨"bts", [], btsTree⟩ rfl⟩

set_option maxHeartbeats 4000000
set_option maxRecDepth 8000

/-- Claim C6: a limit violation does not abort the solve.  On the
fixture-derived system whose source has an output-current limit of
`[0, 3]` and whose load draws 3.5 A, the solve completes (converged),
the source's row reports `io = 3.5` with a warning naming the violated
bound, and the other row is produced with no warning. -/
theorem limit_violation_row :
    (solveOne (1/1000000) 3 25 limTree).2.1 = SolveStatus.Converged ∧
    (rowAt (solveOne (1/1000000) 3 25 limTree).1 0).iout = 7/2 ∧
    (rowAt (solveOne (1/1000000) 3 25 limTree).1 0).warns = ["io above max"] ∧
    (rowAt (solveOne (1/1000000) 3 25 limTree).1 1).warns = [] ∧
    (rowsT (solveOne (1/1000000) 3 25 limTree).1).length = 2 := by
  norm_num [solveOne, relax, stepS, initState, buildT, buildF, tdRoot, tdT, tdF,
    buT, buF, evalII, evalVO, mrcT, mrcF, relCh, limTree, src12, load35, mkComp,
    rowT, rowF, rowAt, rowsT, rowsF, row0, checkLimits, chk, defaultLimits,
    abs, max_def, min_def]

/-- Witness for C1: a concrete converged solve whose rows satisfy the
conservation predicate. -/
theorem current_conservation_witness :
    (solveOne (1/1000000) 3 25 limTree).2.1 = SolveStatus.Converged ∧
    consT (solveOne (1/1000000) 3 25 limTree).1 := by
  have h : (solveOne (1/1000000) 3 25 limTree).2.1 = SolveStatus.Converged := by
    norm_num [solveOne, relax, stepS, initState, buildT, buildF, tdRoot, tdT, tdF,
      buT, buF, evalII, evalVO, mrcT, mrcF, relCh, limTree, src12, load35, mkComp,
      abs, max_def, min_def]
  exact ⟨h, current_conservation (1/1000000) 3 25 limTree h⟩

/-- Witness for C5: with a zero tolerance and an iteration cap of one,
the concrete solve is non-convergent and its first row carries the
"non-convergent" warning. -/
theorem nonconvergent_warns_witness :
    "non-convergent" ∈ (rowAt (solveOne 0 1 25 limTree).1 0).warns := by
  have h : (solveOne 0 1 25 limTree).2.1 = SolveStatus.NonConvergent := by
    norm_num [solveOne, relax, stepS, initState, buildT, buildF, tdRoot, tdT, tdF,
      buT, buF, evalII, evalVO, mrcT, mrcF, relCh, limTree, src12, load35, mkComp,
      abs, max_def, min_def]
  exact nonconvergent_warns 0 1 25 limTree h _ (by
    norm_num [solveOne, relax, stepS, initState, buildT, buildF, tdRoot, tdT, tdF,
      buT, buF, evalII, evalVO, mrcT, mrcF, relCh, limTree, src12, load35, mkComp,
      rowT, rowF, rowAt, rowsT, rowsF, row0, checkLimits, chk, defaultLimits,
      addWarnT, addWarnF, warnAdd, abs, max_def, min_def])

/-! ## The energy example (C3) -/

/-- The root node's current output-current estimate. -/
def rootW : STree → ℚ
  | .node _ _ w _ => w

/-- Invariant of the relaxation on the energy-example chain: the source
keeps `vi = 3`; the converter's input voltage is the source voltage
minus the drop its current causes across `rs = 10`; the load's input
voltage is exactly the converter's regulated 1.8 V. -/
def btsInv (s : STree) : Prop :=
  ∃ a d g, s = .node cSrc 3 a (.fcons (.node cConv (3 - a * 10) d
    (.fcons (.node cLoad (9/5) g .fnil) .fnil)) .fnil)

theorem btsInv_init : btsInv (initState btsTree) := by
  refine ⟨0, 0, 0, ?_⟩
  norm_num [initState, buildT, buildF, tdRoot, tdT, tdF, evalVO, evalII,
    cSrc, cConv, cLoad, mkComp, btsTree]

theorem btsInv_step (s : STree) (h : btsInv s) : btsInv (stepS s) := by
  obtain ⟨a, d, g, rfl⟩ := h
  exact ⟨_, _, _, rfl⟩

theorem relax_succ (tol : ℚ) (n : Nat) (s : STree) :
    relax tol (n + 1) s =
      if mrcT s (stepS s) < tol then (stepS s, true, 1)
      else ((relax tol n (stepS s)).1, (relax tol n (stepS s)).2.1,
        (relax tol n (stepS s)).2.2 + 1) := rfl

theorem btsInv_relax : ∀ (tol : ℚ) (n : Nat) (s : STree),
    btsInv s → btsInv (relax tol n s).1
  | _, 0, s, h => h
  | tol, n + 1, s, h => by
    rw [relax_succ]
    by_cases hb : mrcT s (stepS s) < tol
    · rw [if_pos hb]; exact btsInv_step s h
    · rw [if_neg hb]; exact btsInv_relax tol n (stepS s) (btsInv_step s h)

/-- Claim C3: on Source(vo=3, rs=10) → Converter(vo=1.8, eff=0.87) →
PLoad(pwr=13e-3), the solved load input current is exactly 13e-3/1.8,
the converter's output current equals the load current, the converter's
input current equals `(io·vo + quiescent_power)/(eff·vi)` at the
converter's solved input voltage, and that voltage is the source voltage
3 minus the drop across rs=10 at the relaxation's final source current. -/
theorem energy_example_rows (tol : ℚ) (cap : Nat) (amb : ℚ) :
    (rowAt (solveOne tol cap amb btsTree).1 2).iin = 13/1800 ∧
    (rowAt (solveOne tol cap amb btsTree).1 1).iout =
      (rowAt (solveOne tol cap amb btsTree).1 2).iin ∧
    (rowAt (solveOne tol cap amb btsTree).1 1).iin =
      ((rowAt (solveOne tol cap amb btsTree).1 1).iout * (9/5) + 0) /
        ((87/100) * (rowAt (solveOne tol cap amb btsTree).1 1).vin) ∧
    (rowAt (solveOne tol cap amb btsTree).1 1).vin =
      3 - rootW (relax tol cap (initState btsTree)).1 * 10 := by
  obtain ⟨a, d, g, hfin⟩ := btsInv_relax tol cap (initState btsTree) btsInv_init
  rw [solveOne_eq]
  by_cases hb : (relax tol cap (initState btsTree)).2.1 = true
  · rw [if_pos hb, hfin]
    refine ⟨?_, ?_, ?_, ?_⟩ <;>
      · simp only [rowT, rowF, rowAt, rowsT, rowsF, evalII, evalVO,
          cSrc, cConv, cLoad, mkComp, rootW, List.getD, List.append_nil,
          List.cons_append, List.nil_append]
        norm_num
  · rw [if_neg hb, hfin]
    refine ⟨?_, ?_, ?_, ?_⟩ <;>
      · simp only [rowT, rowF, rowAt, rowsT, rowsF, evalII, evalVO,
          cSrc, cConv, cLoad, mkComp, rootW, addWarnT, addWarnF, warnAdd,
          List.getD, List.append_nil, List.cons_append, List.nil_append]
        norm_num

/-! ## Battery life with a constant-current load (C8) -/

/-- Shape invariant: the battery system's state stays a two-node chain
with the battery source at the root and the constant-current load as its
only child. -/
def battShape (vs rs ic : ℚ) (s : STree) : Prop :=
  ∃ v1 a e g, s = .node (mkComp "Battery" (.source vs rs)) v1 a
    (.fcons (.node (mkComp "Load" (.iload ic)) e g .fnil) .fnil)

theorem battShape_init (vs rs ic : ℚ) :
    battShape vs rs ic (initState (battTree vs rs ic)) := by
  exact ⟨_, _, _, _, rfl⟩

theorem battShape_step (vs rs ic : ℚ) (s : STree) (h : battShape vs rs ic s) :
    battShape vs rs ic (stepS s) := by
  obtain ⟨v1, a, e, g, rfl⟩ := h
  exact ⟨_, _, _, _, rfl⟩

theorem battShape_relax : ∀ (vs rs ic tol : ℚ) (n : Nat) (s : STree),
    battShape vs rs ic s → battShape vs rs ic (relax tol n s).1
  | _, _, _, _, 0, s, h => h
  | vs, rs, ic, tol, n + 1, s, h => by
    rw [relax_succ]
    by_cases hb : mrcT s (stepS s) < tol
    · rw [if_pos hb]; exact battShape_step vs rs ic s h
    · rw [if_neg hb]
      exact battShape_relax vs rs ic tol n (stepS s) (battShape_step vs rs ic s h)

theorem setFlags_batt (p : String) (vs rs ic : ℚ) :
    setFlagsT p (battTree vs rs ic) = battTree vs rs ic := by
  simp [setFlagsT, setFlagsF, setActive, phActive, battTree, mkComp]

theorem rootII_addWarn (s : String) (rt : RTree) :
    rootII (addWarnT s rt) = rootII rt := by
  cases rt with
  | node r f => simp [addWarnT, warnAdd, rootII]

theorem rootII_batt (tol : ℚ) (cap : Nat) (amb : ℚ) (p : String)
    (vs rs ic : ℚ) :
    rootII (solvePhase tol cap amb p (battTree vs rs ic)).1 = ic := by
  unfold solvePhase
  rw [setFlags_batt, solveOne_eq]
  obtain ⟨v1, a, e, g, hfin⟩ :=
    battShape_relax vs rs ic tol cap (initState (battTree vs rs ic))
      (battShape_init vs rs ic)
  by_cases hb : (relax tol cap (initState (battTree vs rs ic))).2.1 = true
  · rw [if_pos hb, hfin]
    simp only [rowT, rowF, evalII, mkComp, rootII]
    norm_num
  · rw [if_neg hb, hfin]
    rw [rootII_addWarn]
    simp only [rowT, rowF, evalII, mkComp, rootII]
    norm_num

theorem sum_map_mul (l : List (String × ℚ)) (c : ℚ) :
    (l.map fun pr => pr.2 * c).sum = (l.map Prod.snd).sum * c := by
  induction l with
  | nil => simp
  | cons q qs ih => simp only [List.map_cons, List.sum_cons, ih]; ring

/-- Claim C8: with no discharge curve, the battery-life estimate is the
capacity divided by the phase-duration-weighted average drawn current;
for a constant-current load of `ic` it equals `capacity / ic` exactly. -/
theorem batt_life_constant_current :
    ∀ (tol : ℚ) (cap : Nat) (amb cnom vs rs ic : ℚ) (nm : String)
      (ps : List (String × ℚ)),
      ((ps.map Prod.snd).sum ≠ 0 ∨ ps = []) →
      battLife tol cap amb cnom ⟨nm, ps, battTree vs rs ic⟩ = cnom / ic := by
  intro tol cap amb cnom vs rs ic nm ps h
  match ps, h with
  | [], _ =>
    simp only [battLife, rootII_batt]
    norm_num
  | q :: qs, h =>
    have hs : ((q :: qs).map Prod.snd).sum ≠ 0 := by
      rcases h with h | h
      · exact h
      · exact absurd h (by simp)
    simp only [battLife, rootII_batt]
    rw [sum_map_mul]
    rw [mul_comm, mul_div_assoc, div_self hs, mul_one]

/-- Witness for C8 at a concrete capacity, current and phase list. -/
theorem batt_life_constant_current_witness :
    battLife 1 1 0 100 ⟨"b", [("one", 2), ("two", 3)], battTree 3 0 2⟩ =
      100 / 2 :=
  batt_life_constant_current 1 1 0 100 3 0 2 "b" [("one", 2), ("two", 3)]
    (Or.inl (by norm_num))

end Sysloss
